import Mathlib

/-!
Verification of the artwork-resolution, rendering and theming logic of the
portfolio page script (`script.js`).  JavaScript strings are modelled as
`List Char`; the browser network (`fetch`), the WHATWG URL parser and the DOM
are external collaborators and are modelled as explicit oracles / state.
Promises that are stored in the two lookup caches are modelled, for the
sequential fragment, by their settled outcome (`Except` error value); the
synchronous prefix of each fetch function (everything before its first
suspension point) is additionally modelled as an atomic step of a small
concurrency state machine (`startLookup`).
-/

namespace Portfolio

abbrev Str := List Char

/-- JavaScript `\s` / `String.prototype.trim` whitespace class. -/
def isJsSpace (c : Char) : Bool :=
  c = ' ' || c = '\t' || c = '\n' || c = '\r' ||
  c.val = 11 || c.val = 12 || c.val = 0xa0 || c.val = 0x1680 ||
  (0x2000 ≤ c.val && c.val ≤ 0x200a) || c.val = 0x2028 || c.val = 0x2029 ||
  c.val = 0x202f || c.val = 0x205f || c.val = 0x3000 || c.val = 0xfeff

/-- JavaScript `String.prototype.trim`. -/
def trimChars (l : Str) : Str :=
  ((l.dropWhile isJsSpace).reverse.dropWhile isJsSpace).reverse

/-- JavaScript `String.prototype.toLowerCase` (ASCII fragment). -/
def toLowerList (l : Str) : Str := l.map Char.toLower

/-- Literal pattern `pat` matches at the head of `l` (case-sensitive). -/
def litAt : Str → Str → Bool
  | [], _ => true
  | _ :: _, [] => false
  | p :: ps, c :: cs => p = c && litAt ps cs

/-- JavaScript `String.prototype.includes`. -/
def containsSub (l pat : Str) : Bool := l.tails.any (fun t => litAt pat t)

/-- Case-insensitive literal match: consume `pat` from the head of the text,
returning the remainder (regex literal under the `i` flag). -/
def ciTake : Str → Str → Option Str
  | [], l => some l
  | _ :: _, [] => none
  | p :: ps, c :: cs => if p.toLower = c.toLower then ciTake ps cs else none

/-- Leftmost-match regex search: try the position matcher `m` at every suffix,
left to right, as a JavaScript `String.prototype.match` does. -/
def scanFor {α : Type} (m : Str → Option α) : Str → Option α
  | [] => m []
  | c :: cs =>
    match m (c :: cs) with
    | some r => some r
    | none => scanFor m cs

/-- Regex `\w` class `[A-Za-z0-9_]`. -/
def isWordChar (c : Char) : Bool :=
  ('a' ≤ c && c ≤ 'z') || ('A' ≤ c && c ≤ 'Z') || c.isDigit || c = '_'

/-- Position matcher for `/id(\d+)/i` (fetchAppleArtwork, script.js:636). -/
def matchIdAt : Str → Option Str
  | c1 :: c2 :: rest =>
    if (c1 = 'i' || c1 = 'I') && (c2 = 'd' || c2 = 'D') then
      let digits := rest.takeWhile Char.isDigit
      if digits = [] then none else some digits
    else none
  | _ => none

/-- The numeric app id captured by `appStoreUrl.match(/id(\d+)/i)`. -/
def extractAppleId (url : Str) : Option Str := scanFor matchIdAt url

/-- The literal part of the country regex `/apps\.apple\.com\/(\w{2})\//i`. -/
def appleHostPat : Str := "apps.apple.com/".data

/-- Position matcher for `/apps\.apple\.com\/(\w{2})\//i`
(extractAppleCountry, script.js:760). -/
def matchAppleAt (l : Str) : Option (Char × Char) :=
  match ciTake appleHostPat l with
  | some (c1 :: c2 :: c3 :: _) =>
    if c3 = '/' && isWordChar c1 && isWordChar c2 then some (c1, c2) else none
  | _ => none

/-- extractAppleCountry (script.js:759-765): two-letter segment after the
store host, uppercased; `"US"` when the regex does not match. -/
def extractAppleCountry (url : Str) : Str :=
  match scanFor matchAppleAt url with
  | some (c1, c2) => [c1.toUpper, c2.toUpper]
  | none => "US".data

/-- Character class `[A-Za-z0-9._]` of the Play-Store id regex. -/
def isPkgChar (c : Char) : Bool :=
  ('a' ≤ c && c ≤ 'z') || ('A' ≤ c && c ≤ 'Z') || c.isDigit || c = '.' || c = '_'

/-- Position matcher for `/id=([A-Za-z0-9._]+)/` (extractPlayStoreId). -/
def matchIdParamAt : Str → Option Str
  | 'i' :: 'd' :: '=' :: rest =>
    let cap := rest.takeWhile isPkgChar
    if cap = [] then none else some cap
  | _ => none

/-- The manual fallback scan `url.match(/id=([A-Za-z0-9._]+)/)` of
extractPlayStoreId; `""` when there is no match. -/
def scanIdParam (url : Str) : Str := (scanFor matchIdParamAt url).getD []

/-- extractPlayStoreId (script.js:690-703).  `parseURL` models the builtin
WHATWG `new URL(url)` / `searchParams.get("id")`: `none` means the constructor
threw, `some q` means parsing succeeded and `q` is the value of the `id`
query parameter (`none` when absent).  A missing or empty parameter falls
through to the manual regex scan, exactly as `if (id) return id;` does. -/
def extractPlayStoreId (parseURL : Str → Option (Option Str)) (url : Str) : Str :=
  match parseURL url with
  | some (some i) => if i = [] then scanIdParam url else i
  | _ => scanIdParam url

/-- Quote class `["']` of the og:image regexes. -/
def isQuote (c : Char) : Bool := c = '"' || c = '\''

/-- Regex `\s+` followed by the rest of the pattern: requires at least one
whitespace character and consumes the maximal run (the following literal is
never whitespace, so greedy matching without backtracking is exact). -/
def ws1 : Str → Option Str
  | [] => none
  | c :: cs => if isJsSpace c then some (cs.dropWhile isJsSpace) else none

/-- Regex `["']`: consume one quote character. -/
def quoteCh : Str → Option Str
  | [] => none
  | c :: cs => if isQuote c then some cs else none

/-- Regex `([^"']+)["']`: capture the maximal nonempty run of non-quote
characters, then consume the closing quote; returns (capture, remainder). -/
def captureToQuote (l : Str) : Option (Str × Str) :=
  let body := l.takeWhile (fun c => !isQuote c)
  match l.dropWhile (fun c => !isQuote c) with
  | [] => none
  | _ :: rest => if body = [] then none else some (body, rest)

/-- Position matcher for
`/<meta\s+property=["']og:image["']\s+content=["']([^"']+)["']/i`
(resolveGoogleArtwork, script.js:731). -/
def matchP1At (l : Str) : Option Str :=
  (ciTake "<meta".data l).bind fun r1 =>
  (ws1 r1).bind fun r2 =>
  (ciTake "property=".data r2).bind fun r3 =>
  (quoteCh r3).bind fun r4 =>
  (ciTake "og:image".data r4).bind fun r5 =>
  (quoteCh r5).bind fun r6 =>
  (ws1 r6).bind fun r7 =>
  (ciTake "content=".data r7).bind fun r8 =>
  (quoteCh r8).bind fun r9 =>
  (captureToQuote r9).map (·.1)

/-- Position matcher for
`/<meta\s+content=["']([^"']+)["']\s+property=["']og:image["']/i`
(resolveGoogleArtwork, script.js:732). -/
def matchP2At (l : Str) : Option Str :=
  (ciTake "<meta".data l).bind fun r1 =>
  (ws1 r1).bind fun r2 =>
  (ciTake "content=".data r2).bind fun r3 =>
  (quoteCh r3).bind fun r4 =>
  (captureToQuote r4).bind fun ur =>
  (ws1 ur.2).bind fun r5 =>
  (ciTake "property=".data r5).bind fun r6 =>
  (quoteCh r6).bind fun r7 =>
  (ciTake "og:image".data r7).bind fun r8 =>
  (quoteCh r8).map fun _ => ur.1

/-- Position matcher for
`/<meta\s+name=["']og:image["']\s+content=["']([^"']+)["']/i`
(resolveGoogleArtwork, script.js:733). -/
def matchP3At (l : Str) : Option Str :=
  (ciTake "<meta".data l).bind fun r1 =>
  (ws1 r1).bind fun r2 =>
  (ciTake "name=".data r2).bind fun r3 =>
  (quoteCh r3).bind fun r4 =>
  (ciTake "og:image".data r4).bind fun r5 =>
  (quoteCh r5).bind fun r6 =>
  (ws1 r6).bind fun r7 =>
  (ciTake "content=".data r7).bind fun r8 =>
  (quoteCh r8).bind fun r9 =>
  (captureToQuote r9).map (·.1)

/-- JavaScript `.replace(/&amp;/g, "&")`: left-to-right, non-overlapping. -/
def replaceAmp : Str → Str
  | '&' :: 'a' :: 'm' :: 'p' :: ';' :: rest => '&' :: replaceAmp rest
  | c :: rest => c :: replaceAmp rest
  | [] => []

/-- The pattern loop of resolveGoogleArtwork (script.js:730-743): try the
three og:image patterns in order on the fetched body; unescape `&amp;` in
the first capture found. -/
def extractOgImage (html : Str) : Option Str :=
  match scanFor matchP1At html with
  | some u => some (replaceAmp u)
  | none =>
    match scanFor matchP2At html with
    | some u => some (replaceAmp u)
    | none => (scanFor matchP3At html).map replaceAmp

def noOgMsg : Str := "No og:image tag found in response".data

def defaultGoogleMsg : Str := "Unable to retrieve Google Play artwork".data

/-- The two Play-Store proxy endpoint templates (script.js:280-283), modelled
by their positions in the fixed ordered list; a mirror fetch oracle maps the
position to the outcome of fetching the templated URL. -/
def playStoreProxyEndpoints : List Nat := [0, 1]

/-- The mirror loop of resolveGoogleArtwork (script.js:705-757).  `gFetch i`
is the settled outcome of `fetch` + status check + `text()` against mirror
`i`: `.error` covers both a rejected fetch and a non-ok status.  A fetched
body without an og:image tag records the fixed message as the last error. -/
def resolveGoogleLoop (gFetch : Nat → Except Str Str) :
    List Nat → Option Str → Except Str Str
  | [], lastError => .error (lastError.getD defaultGoogleMsg)
  | i :: rest, _ =>
    match gFetch i with
    | .error e => resolveGoogleLoop gFetch rest (some e)
    | .ok html =>
      match extractOgImage html with
      | some u => .ok u
      | none => resolveGoogleLoop gFetch rest (some noOgMsg)

/-- resolveGoogleArtwork (script.js:705-757). -/
def resolveGoogleArtwork (gFetch : Nat → Except Str Str) : Except Str Str :=
  resolveGoogleLoop gFetch playStoreProxyEndpoints none

/-- One record of the iTunes lookup payload `results` array; absent fields
are the empty string, matching the falsiness tests of the source. -/
structure AppleResult where
  artworkUrl512 : Str
  artworkUrl100 : Str
  artworkUrl60 : Str
deriving DecidableEq

/-- JavaScript `String.prototype.replace` with a non-global literal pattern:
replace the first occurrence only. -/
def replaceFirst (pat rep : Str) : Str → Str
  | [] => []
  | c :: cs =>
    if litAt pat (c :: cs) then rep ++ (c :: cs).drop pat.length
    else c :: replaceFirst pat rep cs

/-- resolveAppleArtwork (script.js:767-790).  `aFetch appId country` is the
settled outcome of `fetch` + status check + `json()` against the lookup
endpoint for that id and country: `.ok` carries the `results` array. -/
def resolveAppleArtwork (aFetch : Str → Str → Except Str (List AppleResult))
    (appId country : Str) : Except Str Str :=
  match aFetch appId country with
  | .error e => .error e
  | .ok results =>
    match results with
    | [] => .error "No App Store data returned".data
    | result :: _ =>
      let rewritten := replaceFirst "100x100bb".data "512x512bb".data result.artworkUrl100
      let artwork :=
        if result.artworkUrl512 ≠ [] then result.artworkUrl512
        else if rewritten ≠ [] then rewritten
        else result.artworkUrl60
      if artwork = [] then .error "No artwork URL available".data else .ok artwork

deriving instance DecidableEq for Except

def assocFind {α : Type} : List (Str × α) → Str → Option α
  | [], _ => none
  | (k', v) :: rest, k => if k' = k then some v else assocFind rest k

def assocSet {α : Type} : List (Str × α) → Str → α → List (Str × α)
  | [], k, v => [(k, v)]
  | (k', v') :: rest, k, v =>
    if k' = k then (k, v) :: rest else (k', v') :: assocSet rest k v

/-- The mutable module state: the two lookup caches (with promises replaced
by their settled outcomes, which is what any later sequential call observes)
plus logs of the network lookups that were issued. -/
structure FetchState where
  appleCache : List (Str × Except Str Str)
  googleCache : List (Str × Except Str Str)
  appleCalls : List (Str × Str)
  googleCalls : List Str
deriving DecidableEq

def initFS : FetchState := ⟨[], [], [], []⟩

def usStr : Str := "US".data

/-- fetchAppleArtwork (script.js:635-670), sequential settled-state view.
On a cache miss the lookup for (appId, country) is issued (logged in
`appleCalls`) and the promise is stored under `appId_country`; the stored
promise settles as follows.  Primary success resolves and stays cached.
Primary failure with country `US` runs `appleLookupCache.delete(cacheKey)`
and rethrows, so the settled state has no entry.  Primary failure with a
non-US country consults `appId_US`: a cached fallback outcome (success or
failure) becomes this promise's outcome; otherwise a fresh US lookup is
issued, cached under `appId_US`, and its outcome becomes this promise's
outcome.  On that non-US path the `delete(cacheKey)` statement is
unreachable, so even a failed outcome remains cached under both keys. -/
def fetchAppleArtwork (aFetch : Str → Str → Except Str (List AppleResult))
    (s : FetchState) (appStoreUrl : Str) : Except Str Str × FetchState :=
  match extractAppleId appStoreUrl with
  | none => (.error "No App Store id found".data, s)
  | some appId =>
    let countryCode := extractAppleCountry appStoreUrl
    let cacheKey := appId ++ '_' :: countryCode
    match assocFind s.appleCache cacheKey with
    | some r => (r, s)
    | none =>
      let s1 := { s with appleCalls := s.appleCalls ++ [(appId, countryCode)] }
      match resolveAppleArtwork aFetch appId countryCode with
      | .ok v => (.ok v, { s1 with appleCache := assocSet s1.appleCache cacheKey (.ok v) })
      | .error e =>
        if countryCode = usStr then
          (.error e, s1)
        else
          let fallbackKey := appId ++ '_' :: usStr
          match assocFind s1.appleCache fallbackKey with
          | some fr => (fr, { s1 with appleCache := assocSet s1.appleCache cacheKey fr })
          | none =>
            let s2 := { s1 with appleCalls := s1.appleCalls ++ [(appId, usStr)] }
            let fr := resolveAppleArtwork aFetch appId usStr
            (fr, { s2 with
                     appleCache := assocSet (assocSet s2.appleCache fallbackKey fr) cacheKey fr })

/-- fetchGoogleArtwork (script.js:672-688), sequential settled-state view.
On a cache miss one resolution (the whole mirror loop) is issued and stored;
success stays cached, failure runs `googleLookupCache.delete(packageId)` so
the settled state has no entry. -/
def fetchGoogleArtwork (parseURL : Str → Option (Option Str))
    (gFetch : Str → Nat → Except Str Str) (s : FetchState) (playStoreUrl : Str) :
    Except Str Str × FetchState :=
  let packageId := extractPlayStoreId parseURL playStoreUrl
  if packageId = [] then (.error "No Play Store package id found".data, s)
  else
    match assocFind s.googleCache packageId with
    | some r => (r, s)
    | none =>
      let s1 := { s with googleCalls := s.googleCalls ++ [packageId] }
      match resolveGoogleArtwork (gFetch packageId) with
      | .ok v => (.ok v, { s1 with googleCache := assocSet s1.googleCache packageId (.ok v) })
      | .error e => (.error e, s1)

/-- One project record of the manifest.  Absent or null string fields are
modelled by the empty string, matching the `x || ""` falsiness tests of the
source. -/
structure Project where
  title : Str
  url : Str
  platform : Str
  cover_image : Str
  feature : Str
  date : Str
  desc : Str
deriving DecidableEq

def placeholderImage : Str := "assets/placeholder.svg".data

/-- isMobilePlatform (script.js:792-795). -/
def isMobilePlatform (project : Project) : Bool :=
  let platform := toLowerList project.platform
  containsSub platform "ios".data || containsSub platform "android".data

/-- resolveMobileImage (script.js:615-633): dispatch on the platform
substring; any rejection of the store fetch is caught and replaced by the
fallback (trimmed cover image, else the placeholder). -/
def resolveMobileImage (aFetch : Str → Str → Except Str (List AppleResult))
    (parseURL : Str → Option (Option Str)) (gFetch : Str → Nat → Except Str Str)
    (s : FetchState) (project : Project) : Str × FetchState :=
  let fallback := if trimChars project.cover_image ≠ [] then trimChars project.cover_image
                  else placeholderImage
  let platform := toLowerList project.platform
  let storeUrl := project.url
  if containsSub platform "ios".data then
    match fetchAppleArtwork aFetch s storeUrl with
    | (.ok v, s') => (v, s')
    | (.error _, s') => (fallback, s')
  else if containsSub platform "android".data then
    match fetchGoogleArtwork parseURL gFetch s storeUrl with
    | (.ok v, s') => (v, s')
    | (.error _, s') => (fallback, s')
  else (fallback, s)

/-- resolveImageSource (script.js:602-613): a nonempty trimmed cover image
wins unconditionally; otherwise the mobile section or a mobile platform
dispatches to the store resolvers; otherwise the placeholder. -/
def resolveImageSource (aFetch : Str → Str → Except Str (List AppleResult))
    (parseURL : Str → Option (Option Str)) (gFetch : Str → Nat → Except Str Str)
    (s : FetchState) (project : Project) (sectionKey : Str) : Str × FetchState :=
  let coverImage := trimChars project.cover_image
  if coverImage ≠ [] then (coverImage, s)
  else if toLowerList sectionKey = "mobile".data || isMobilePlatform project then
    resolveMobileImage aFetch parseURL gFetch s project
  else (placeholderImage, s)

/-- formatSectionTitle (script.js:486-493), step `[_-]+ → " "`: each maximal
run of underscores and hyphens becomes one space. -/
def sepGo : Bool → Str → Str
  | _, [] => []
  | inRun, c :: cs =>
    if c = '_' || c = '-' then
      if inRun then sepGo true cs else ' ' :: sepGo true cs
    else c :: sepGo false cs

/-- formatSectionTitle, step `([a-z])([A-Z]) → "$1 $2"` (global): a space is
inserted between a lowercase letter and the uppercase letter following it;
resuming after each match equals the sliding scan because a match can only
start at a lowercase letter. -/
def camelSplit : Str → Str
  | [] => []
  | [c] => [c]
  | a :: b :: rest =>
    if a.isLower && b.isUpper then a :: ' ' :: camelSplit (b :: rest)
    else a :: camelSplit (b :: rest)

/-- Step `\s+ → " "`: each maximal whitespace run becomes one space. -/
def wsToSpace : Bool → Str → Str
  | _, [] => []
  | inRun, c :: cs =>
    if isJsSpace c then
      if inRun then wsToSpace true cs else ' ' :: wsToSpace true cs
    else c :: wsToSpace false cs

/-- Step `\b\w → uppercase`: uppercase every word character whose
predecessor is not a word character. -/
def upWords : Bool → Str → Str
  | _, [] => []
  | prevWord, c :: cs =>
    if isWordChar c then
      if prevWord then c :: upWords true cs else c.toUpper :: upWords true cs
    else c :: upWords false cs

/-- formatSectionTitle (script.js:486-493). -/
def formatSectionTitle (sectionKey : Str) : Str :=
  upWords false (trimChars (wsToSpace false (camelSplit (sepGo false sectionKey))))

/-- slugify (script.js:495-502), step `\s+ → "-"`. -/
def wsToDash : Bool → Str → Str
  | _, [] => []
  | inRun, c :: cs =>
    if isJsSpace c then
      if inRun then wsToDash true cs else '-' :: wsToDash true cs
    else c :: wsToDash false cs

/-- Character kept by slugify's class `[^a-z0-9-]` replacement. -/
def isSlugChar (c : Char) : Bool :=
  ('a' ≤ c && c ≤ 'z') || ('0' ≤ c && c ≤ '9') || c = '-'

/-- slugify, step `-+ → "-"`: collapse each maximal hyphen run. -/
def collapseGo : Bool → Str → Str
  | _, [] => []
  | prevDash, c :: cs =>
    if c = '-' then
      if prevDash then collapseGo true cs else '-' :: collapseGo true cs
    else c :: collapseGo false cs

/-- slugify, step `/^-|-$/g`: remove one leading hyphen. -/
def dropLeadDash : Str → Str
  | [] => []
  | c :: rest => if c = '-' then rest else c :: rest

/-- slugify, step `/^-|-$/g`: remove one trailing hyphen. -/
def dropTrailDash : Str → Str
  | [] => []
  | [c] => if c = '-' then [] else [c]
  | c :: rest => c :: dropTrailDash rest

/-- slugify (script.js:495-502). -/
def slugify (value : Str) : Str :=
  dropTrailDash (dropLeadDash (collapseGo false
    ((wsToDash false (toLowerList value)).map
      (fun c => if isSlugChar c then c else '-'))))

/-- One value of the manifest object; `Array.isArray` distinguishes `arr`
from every other shape. -/
inductive JVal where
  | arr (items : List Project)
  | str (s : Str)
  | num (n : Int)
  | boolean (b : Bool)
  | nul
  | obj
deriving DecidableEq

def JVal.isArr : JVal → Bool
  | .arr _ => true
  | _ => false

structure NavLink where
  href : Str
  text : Str
deriving DecidableEq

/-- A rendered portfolio section element. -/
structure SectionEl where
  id : Str
  key : Str
  heading : Str
  helper : Str
  emptyState : Bool
  cards : List Project
deriving DecidableEq

/-- sectionDescriptions (script.js:271-277). -/
def sectionDescriptions : List (Str × Str) :=
  [("mobile".data,
    "Native and cross-platform applications crafted for iOS and Android.".data),
   ("web".data,
    "Responsive web projects, platforms, and marketing experiences.".data),
   ("game".data,
    "Gameplay experiments built with Unity and other engines.".data),
   ("open-source".data,
    "Libraries and packages shared with the developer community.".data),
   ("stickers".data,
    "Sticker packs designed for iMessage and other messaging platforms.".data)]

/-- createNavLink (script.js:453-458). -/
def createNavLink (sectionKey slug : Str) : NavLink :=
  { href := '#' :: slug, text := formatSectionTitle sectionKey }

/-- buildSectionElement (script.js:460-484); the `[data-cards]` container is
always present in the built element, cards are filled in by renderSection. -/
def buildSectionElement (sectionKey slug : Str) : SectionEl :=
  { id := slug
    key := sectionKey
    heading := formatSectionTitle sectionKey
    helper := (assocFind sectionDescriptions slug).getD
      ("Highlights from the ".data ++ formatSectionTitle sectionKey ++ " collection.".data)
    emptyState := false
    cards := [] }

/-- renderSection (script.js:504-524): an empty project list renders the
empty-state message and zero cards; otherwise one card per project (cards
are appended synchronously with the placeholder; the asynchronous artwork
swap is modelled separately by resolveImageSource). -/
def renderSection (sectionEl : SectionEl) (projects : List Project) : SectionEl :=
  if projects.isEmpty then { sectionEl with emptyState := true, cards := [] }
  else { sectionEl with emptyState := false, cards := projects }

/-- The fallback slug `section-${nav.childElementCount + 1}`; when entry
`i` (0-based) is processed the nav already holds `i` links. -/
def sectionSlugFallback (i : Nat) : Str := "section-".data ++ (Nat.repr (i + 1)).data

/-- The entry loop of renderPortfolioSections (script.js:439-450), with `i`
the number of nav links already appended. -/
def renderEntries : Nat → List (Str × JVal) → List NavLink × List SectionEl
  | _, [] => ([], [])
  | i, (rawKey, items) :: rest =>
    let sectionKey := trimChars rawKey
    let projects := match items with
      | JVal.arr ps => ps
      | _ => []
    let rawSlug := slugify sectionKey
    let slug := if rawSlug = [] then sectionSlugFallback i else rawSlug
    let tail := renderEntries (i + 1) rest
    (createNavLink sectionKey slug :: tail.1,
     renderSection (buildSectionElement sectionKey slug) projects :: tail.2)

/-- Presence of the DOM elements the script queries. -/
structure Dom where
  hasMain : Bool
  hasNav : Bool
  hasSections : Bool
deriving DecidableEq

/-- renderPortfolioSections (script.js:428-451): a no-op when either the nav
or the sections container is missing. -/
def renderPortfolioSections (dom : Dom) (portfolioData : List (Str × JVal)) :
    List NavLink × List SectionEl :=
  if dom.hasNav && dom.hasSections then renderEntries 0 portfolioData else ([], [])

/-- The outcome of fetching `projects.json`: a rejected fetch, or a response
with an HTTP status and a body that either parses to the manifest object or
fails to parse (`none`). -/
inductive ManifestFetch where
  | netError
  | http (status : Nat) (body : Option (List (Str × JVal)))
deriving DecidableEq

/-- `Response.ok`: status in the inclusive range 200-299. -/
def responseOk (status : Nat) : Bool := 200 ≤ status && status ≤ 299

/-- The DOM effect of bootstrapPortfolio: how many error notices were
prepended to main, and what was rendered. -/
structure BootstrapOut where
  notices : Nat
  nav : List NavLink
  sections : List SectionEl
deriving DecidableEq

/-- The catch branch of bootstrapPortfolio (script.js:416-425): one notice
is prepended when main exists. -/
def failNotice (dom : Dom) : BootstrapOut :=
  ⟨if dom.hasMain then 1 else 0, [], []⟩

/-- bootstrapPortfolio (script.js:405-426). -/
def bootstrapPortfolio (dom : Dom) (resp : ManifestFetch) : BootstrapOut :=
  match resp with
  | .netError => failNotice dom
  | .http status body =>
    if responseOk status then
      match body with
      | some data =>
        let r := renderPortfolioSections dom data
        ⟨0, r.1, r.2⟩
      | none => failNotice dom
    else failNotice dom

def darkTheme : Str := "dark".data

def lightTheme : Str := "light".data

/-- The theme-relevant browser state: the `data-theme` attribute of the
document root and the persisted `preferred-theme` storage entry. -/
structure ThemeState where
  rootAttr : Option Str
  stored : Option Str
deriving DecidableEq

/-- getCurrentTheme (script.js:371-373). -/
def getCurrentTheme (rootAttr : Option Str) : Str :=
  if rootAttr = some darkTheme then darkTheme else lightTheme

/-- applyTheme (script.js:351-361); `storageOk` is false when localStorage
throws, in which case the error is swallowed and only the attribute is set. -/
def applyTheme (storageOk persist : Bool) (s : ThemeState) (theme : Str) : ThemeState :=
  { rootAttr := some theme
    stored := if persist && storageOk then some theme else s.stored }

/-- The toggle click handler (script.js:321-325); the handler calls
applyTheme with the default `persist = true`. -/
def themeToggleClick (storageOk : Bool) (s : ThemeState) : ThemeState :=
  let nextTheme := if getCurrentTheme s.rootAttr = darkTheme then lightTheme else darkTheme
  applyTheme storageOk true s nextTheme

/-- State of the concurrency model: the cache maps keys to promise ids,
`nextId` numbers the lookup operations, `issued` logs the keys for which a
network lookup was created, in creation order. -/
structure PendingState where
  cache : List (Str × Nat)
  nextId : Nat
  issued : List Str
deriving DecidableEq

/-- The synchronous prefix of fetchAppleArtwork / fetchGoogleArtwork, run
atomically (no await separates the cache check from the cache store): a
request whose key extraction fails throws synchronously and touches
nothing; otherwise a cached pending operation is joined, or a fresh lookup
is created and stored under the key before control is yielded.  Returns the
id of the operation the request awaits. -/
def startLookup (key? : Option Str) (s : PendingState) : PendingState × Option Nat :=
  match key? with
  | none => (s, none)
  | some k =>
    match assocFind s.cache k with
    | some pid => (s, some pid)
    | none =>
      (⟨assocSet s.cache k s.nextId, s.nextId + 1, s.issued ++ [k]⟩, some s.nextId)

/-- The cache key of the Apple path: `${appId}_${countryCode}`. -/
def appleCacheKey (url : Str) : Option Str :=
  (extractAppleId url).map (fun i => i ++ '_' :: extractAppleCountry url)

/-- The cache key of the Google path: the package id, when one is found. -/
def googleCacheKey (parseURL : Str → Option (Option Str)) (url : Str) : Option Str :=
  let p := extractPlayStoreId parseURL url
  if p = [] then none else some p

/-- Run the synchronous prefixes of a batch of concurrent same-store
requests in the given interleaving order (the order of the list); all the
prefixes run before any lookup settles, which is what it means for the
requests to be concurrent with each other. -/
def runStarts (keyOf : Str → Option Str) :
    PendingState → List Str → PendingState × List (Option Nat)
  | s, [] => (s, [])
  | s, u :: us =>
    let h := startLookup (keyOf u) s
    let t := runStarts keyOf h.1 us
    (t.1, h.2 :: t.2)

/-- Occurrences of key `k` in an issue log. -/
def countKey (l : List Str) (k : Str) : Nat :=
  (l.filter (fun x => decide (x = k))).length

/-- All suffixes of a list, longest first: the candidate start positions of
a leftmost regex search. -/
def allSuffixes : Str → List Str
  | [] => [[]]
  | c :: cs => (c :: cs) :: allSuffixes cs

/-- No two consecutive hyphens anywhere in the list. -/
def noConsecDash (l : Str) : Prop :=
  List.Chain' (fun a b => ¬(a = '-' ∧ b = '-')) l

/-- A value that some store lookup can successfully produce: the outcome of
an Apple metadata resolution or of a Google mirror-loop resolution. -/
def FetchedVal (aFetch : Str → Str → Except Str (List AppleResult))
    (gFetch : Str → Nat → Except Str Str) (v : Str) : Prop :=
  (∃ appId country, resolveAppleArtwork aFetch appId country = .ok v) ∨
  (∃ packageId, resolveGoogleArtwork (gFetch packageId) = .ok v)

/-- Every successful entry of the two caches is a value some store lookup
produced; holds of the initial empty state and is preserved by the
resolvers. -/
def CacheOK (aFetch : Str → Str → Except Str (List AppleResult))
    (gFetch : Str → Nat → Except Str Str) (s : FetchState) : Prop :=
  (∀ k v, assocFind s.appleCache k = some (.ok v) → FetchedVal aFetch gFetch v) ∧
  (∀ k v, assocFind s.googleCache k = some (.ok v) → FetchedVal aFetch gFetch v)

/-! Helper lemmas. -/

theorem assocFind_set_self {α : Type} (c : List (Str × α)) (k : Str) (v : α) :
    assocFind (assocSet c k v) k = some v := by
  induction c with
  | nil => simp [assocSet, assocFind]
  | cons hd tl ih =>
    obtain ⟨k', v'⟩ := hd
    by_cases h : k' = k
    · simp [assocSet, assocFind, h]
    · simp [assocSet, assocFind, h, ih]

theorem assocFind_set_ne {α : Type} (c : List (Str × α)) (k k' : Str) (v : α)
    (h : k' ≠ k) : assocFind (assocSet c k' v) k = assocFind c k := by
  induction c with
  | nil => simp [assocSet, assocFind, h]
  | cons hd tl ih =>
    obtain ⟨k'', v''⟩ := hd
    by_cases h2 : k'' = k'
    · simp [assocSet, assocFind, h2, h]
    · by_cases h3 : k'' = k <;> simp [assocSet, assocFind, h2, h3, ih, Ne.symm h]

theorem renderEntries_len (data : List (Str × JVal)) :
    ∀ i, (renderEntries i data).1.length = data.length ∧
      (renderEntries i data).2.length = data.length := by
  induction data with
  | nil => intro i; simp [renderEntries]
  | cons hd tl ih =>
    intro i
    obtain ⟨k, v⟩ := hd
    simpa [renderEntries] using ih (i + 1)

theorem collapseGo_subset : ∀ (l : Str) (b : Bool) (c : Char), c ∈ collapseGo b l → c ∈ l := by
  intro l
  induction l with
  | nil => intro b c hc; simp [collapseGo] at hc
  | cons a tl ih =>
    intro b c hc
    simp only [collapseGo] at hc
    split_ifs at hc with h1 h2
    · exact List.mem_cons_of_mem _ (ih true c hc)
    · rcases List.mem_cons.mp hc with h | h
      · subst h; subst h1; exact List.mem_cons_self _ _
      · exact List.mem_cons_of_mem _ (ih true c h)
    · rcases List.mem_cons.mp hc with h | h
      · subst h; exact List.mem_cons_self _ _
      · exact List.mem_cons_of_mem _ (ih false c h)

theorem collapseGo_head : ∀ l : Str, (collapseGo true l).head? ≠ some '-' := by
  intro l
  induction l with
  | nil => simp [collapseGo]
  | cons a tl ih =>
    by_cases h : a = '-'
    · simpa [collapseGo, h] using ih
    · simp [collapseGo, h]

theorem collapseGo_chain : ∀ (l : Str) (b : Bool), noConsecDash (collapseGo b l) := by
  intro l
  induction l with
  | nil => intro b; simp [collapseGo, noConsecDash]
  | cons a tl ih =>
    intro b
    by_cases h : a = '-'
    · subst h
      cases b with
      | true => simpa [collapseGo] using ih true
      | false =>
        simp only [collapseGo, if_pos rfl, if_neg (Bool.false_ne_true)]
        refine List.chain'_cons'.mpr ⟨?_, ih true⟩
        intro y hy
        intro hc
        exact collapseGo_head tl (by rw [hy, hc.2])
    · simp only [collapseGo, if_neg h]
      refine List.chain'_cons'.mpr ⟨?_, ih false⟩
      intro y _ hc
      exact h hc.1

theorem dropLeadDash_sublist (l : Str) : List.Sublist (dropLeadDash l) l := by
  cases l with
  | nil => exact List.Sublist.refl _
  | cons c rest =>
    by_cases h : c = '-'
    · rw [show dropLeadDash (c :: rest) = rest from by simp [dropLeadDash, h]]
      exact List.Sublist.cons c (List.Sublist.refl rest)
    · rw [show dropLeadDash (c :: rest) = c :: rest from by simp [dropLeadDash, h]]

theorem dropLeadDash_head (l : Str) (h : noConsecDash l) :
    (dropLeadDash l).head? ≠ some '-' := by
  cases l with
  | nil => simp [dropLeadDash]
  | cons c rest =>
    by_cases hc : c = '-'
    · subst hc
      simp only [dropLeadDash, if_pos rfl]
      intro hh
      have := (List.chain'_cons'.mp h).1 '-' hh
      exact this ⟨rfl, rfl⟩
    · simp [dropLeadDash, hc]

theorem chain_dropLead (l : Str) (h : noConsecDash l) : noConsecDash (dropLeadDash l) := by
  cases l with
  | nil => exact h
  | cons c rest =>
    by_cases hc : c = '-'
    · rw [show dropLeadDash (c :: rest) = rest from by simp [dropLeadDash, hc]]
      exact h.tail
    · rw [show dropLeadDash (c :: rest) = c :: rest from by simp [dropLeadDash, hc]]
      exact h

theorem dropTrailDash_sublist : ∀ l : Str, List.Sublist (dropTrailDash l) l := by
  intro l
  induction l with
  | nil => exact List.Sublist.refl _
  | cons c tl ih =>
    cases tl with
    | nil =>
      by_cases h : c = '-'
      · rw [show dropTrailDash [c] = [] from by simp [dropTrailDash, h]]
        exact List.nil_sublist _
      · rw [show dropTrailDash [c] = [c] from by simp [dropTrailDash, h]]
    | cons d r =>
      rw [show dropTrailDash (c :: d :: r) = c :: dropTrailDash (d :: r) from rfl]
      exact List.Sublist.cons₂ c ih

theorem dropTrailDash_head : ∀ (l : Str) (c : Char),
    (dropTrailDash l).head? = some c → l.head? = some c := by
  intro l c
  cases l with
  | nil => simp [dropTrailDash]
  | cons a tl =>
    cases tl with
    | nil => by_cases h : a = '-' <;> simp [dropTrailDash, h]
    | cons d r => simp [dropTrailDash]

theorem dropTrailDash_last : ∀ l : Str, noConsecDash l →
    (dropTrailDash l).getLast? ≠ some '-' := by
  intro l
  induction l with
  | nil => intro _; simp [dropTrailDash]
  | cons c tl ih =>
    intro h
    cases tl with
    | nil => by_cases hc : c = '-' <;> simp [dropTrailDash, hc]
    | cons d r =>
      have hrec := ih h.tail
      cases r with
      | nil =>
        by_cases hd : d = '-'
        · subst hd
          have hcd : ¬(c = '-' ∧ '-' = '-') := (List.chain'_cons.mp h).1
          have hc : c ≠ '-' := fun hh => hcd ⟨hh, rfl⟩
          simp [dropTrailDash, hc]
        · simp [dropTrailDash, hd]
      | cons e r' =>
        simpa [dropTrailDash, List.getLast?_cons_cons] using hrec

theorem chain_dropTrail : ∀ l : Str, noConsecDash l → noConsecDash (dropTrailDash l) := by
  intro l
  induction l with
  | nil => intro _; simp [dropTrailDash, noConsecDash]
  | cons c tl ih =>
    intro h
    cases tl with
    | nil =>
      by_cases hc : c = '-' <;> simp [dropTrailDash, hc, noConsecDash]
    | cons d r =>
      have htail := ih h.tail
      simp only [dropTrailDash]
      refine List.chain'_cons'.mpr ⟨?_, htail⟩
      intro y hy
      have : (d :: r).head? = some y := dropTrailDash_head (d :: r) y hy
      have hyd : d = y := by simpa using this
      subst hyd
      exact (List.chain'_cons.mp h).1

theorem noConsecDash_no_split (l : Str) (h : noConsecDash l) :
    ¬ ∃ l1 l2, l = l1 ++ '-' :: '-' :: l2 := by
  rintro ⟨l1, l2, rfl⟩
  have h2 := (List.chain'_append.mp h).2.1
  exact (List.chain'_cons.mp h2).1 ⟨rfl, rfl⟩

theorem slugify_props (v : Str) :
    (∀ c ∈ slugify v, isSlugChar c = true) ∧
    (slugify v).head? ≠ some '-' ∧
    (slugify v).getLast? ≠ some '-' ∧
    noConsecDash (slugify v) := by
  unfold slugify
  set mapped := (wsToDash false (toLowerList v)).map
    (fun c => if isSlugChar c then c else '-') with hm
  have hmem : ∀ c ∈ mapped, isSlugChar c = true := by
    intro c hc
    rw [hm] at hc
    obtain ⟨x, _, rfl⟩ := List.mem_map.mp hc
    by_cases hx : isSlugChar x
    · simp [hx]
    · simp only [hx, if_false, Bool.false_eq_true]
      decide
  have hchain : noConsecDash (collapseGo false mapped) := collapseGo_chain mapped false
  have hchain2 : noConsecDash (dropLeadDash (collapseGo false mapped)) :=
    chain_dropLead _ hchain
  refine ⟨?_, ?_, dropTrailDash_last _ hchain2, chain_dropTrail _ hchain2⟩
  · intro c hc
    have hc2 : c ∈ dropLeadDash (collapseGo false mapped) :=
      (dropTrailDash_sublist _).subset hc
    have hc3 : c ∈ collapseGo false mapped := (dropLeadDash_sublist _).subset hc2
    exact hmem c (collapseGo_subset _ _ _ hc3)
  · intro hhead
    exact dropLeadDash_head _ hchain (dropTrailDash_head _ _ hhead)

theorem ciTake_self : ∀ p l : Str, ciTake p (p ++ l) = some l := by
  intro p
  induction p with
  | nil => intro l; simp [ciTake]
  | cons c cs ih => intro l; simp [ciTake, ih]

theorem scanFor_of_head {α : Type} (m : Str → Option α) (l : Str) (r : α)
    (h : m l = some r) : scanFor m l = some r := by
  cases l with
  | nil => simpa [scanFor] using h
  | cons c cs => simp [scanFor, h]

theorem scanFor_eq_none_iff {α : Type} (m : Str → Option α) :
    ∀ l : Str, scanFor m l = none ↔ ∀ t ∈ allSuffixes l, m t = none := by
  intro l
  induction l with
  | nil =>
    constructor
    · intro h t ht
      have ht2 : t = [] := by simpa [allSuffixes] using ht
      subst ht2
      simpa [scanFor] using h
    · intro h
      simpa [scanFor] using h [] (by simp [allSuffixes])
  | cons c cs ih =>
    constructor
    · intro h t ht
      cases hm : m (c :: cs) with
      | some r => simp [scanFor, hm] at h
      | none =>
        simp only [scanFor, hm] at h
        rcases (show t = c :: cs ∨ t ∈ allSuffixes cs by
          simpa [allSuffixes] using ht) with h1 | h1
        · subst h1; exact hm
        · exact (ih.mp h) t h1
    · intro h
      have hm : m (c :: cs) = none := h (c :: cs) (by simp [allSuffixes])
      simp only [scanFor, hm]
      exact ih.mpr (fun t ht => h t (by simp [allSuffixes, ht]))

theorem scanFor_append {α : Type} (m : Str → Option α) :
    ∀ l1 l2 : Str, (∀ t ∈ allSuffixes l1, t ≠ [] → m (t ++ l2) = none) →
      scanFor m (l1 ++ l2) = scanFor m l2 := by
  intro l1
  induction l1 with
  | nil => intro l2 _; simp
  | cons c cs ih =>
    intro l2 h
    have hm : m ((c :: cs) ++ l2) = none :=
      h (c :: cs) (by simp [allSuffixes]) (by simp)
    rw [List.cons_append]
    rw [List.cons_append] at hm
    simp only [scanFor, hm]
    exact ih l2 (fun t ht hne => h t (by simp [allSuffixes, ht]) hne)

theorem matchAppleAt_pos (c1 c2 : Char) (rest : Str)
    (h1 : isWordChar c1 = true) (h2 : isWordChar c2 = true) :
    matchAppleAt (appleHostPat ++ c1 :: c2 :: '/' :: rest) = some (c1, c2) := by
  simp [matchAppleAt, ciTake_self, h1, h2]

theorem takeWhile_append_quote (u rest : Str) (hq : ∀ c ∈ u, isQuote c = false) :
    (u ++ '"' :: rest).takeWhile (fun c => !isQuote c) = u := by
  induction u with
  | nil => simp [List.takeWhile_cons, isQuote]
  | cons c cs ih =>
    have hc : isQuote c = false := hq c (List.mem_cons_self _ _)
    simp only [List.cons_append, List.takeWhile_cons, hc]
    simpa using ih (fun x hx => hq x (List.mem_cons_of_mem _ hx))

theorem dropWhile_append_quote (u rest : Str) (hq : ∀ c ∈ u, isQuote c = false) :
    (u ++ '"' :: rest).dropWhile (fun c => !isQuote c) = '"' :: rest := by
  induction u with
  | nil => simp [List.dropWhile_cons, isQuote]
  | cons c cs ih =>
    have hc : isQuote c = false := hq c (List.mem_cons_self _ _)
    simp only [List.cons_append, List.dropWhile_cons, hc]
    simpa using ih (fun x hx => hq x (List.mem_cons_of_mem _ hx))

theorem captureToQuote_append (u rest : Str) (hne : u ≠ [])
    (hq : ∀ c ∈ u, isQuote c = false) :
    captureToQuote (u ++ '"' :: rest) = some (u, rest) := by
  unfold captureToQuote
  rw [takeWhile_append_quote u rest hq, dropWhile_append_quote u rest hq]
  simp [hne]

theorem matchP1At_pos (u rest : Str) (hne : u ≠ [])
    (hq : ∀ c ∈ u, isQuote c = false) :
    matchP1At ("<meta property=\"og:image\" content=\"".data ++ (u ++ ('"' :: rest))) =
      some u := by
  show (captureToQuote (u ++ '"' :: rest)).map (·.1) = some u
  rw [captureToQuote_append u rest hne hq]
  rfl

theorem countKey_append (l1 l2 : List Str) (k : Str) :
    countKey (l1 ++ l2) k = countKey l1 k + countKey l2 k := by
  simp [countKey, List.filter_append]

theorem countKey_single_ne (k' k : Str) (h : k' ≠ k) : countKey [k'] k = 0 := by
  simp [countKey, h]

theorem countKey_single_eq (k : Str) : countKey [k] k = 1 := by
  simp [countKey]

theorem runStarts_cons (keyOf : Str → Option Str) (s : PendingState) (u : Str)
    (us : List Str) :
    runStarts keyOf s (u :: us) =
      ((runStarts keyOf (startLookup (keyOf u) s).1 us).1,
       (startLookup (keyOf u) s).2 :: (runStarts keyOf (startLookup (keyOf u) s).1 us).2) :=
  rfl

theorem runStarts_persist (keyOf : Str → Option Str) :
    ∀ (us : List Str) (s : PendingState) (k : Str) (pid : Nat),
      assocFind s.cache k = some pid →
      assocFind (runStarts keyOf s us).1.cache k = some pid ∧
      countKey (runStarts keyOf s us).1.issued k = countKey s.issued k ∧
      ∀ p ∈ us.zip (runStarts keyOf s us).2, keyOf p.1 = some k → p.2 = some pid := by
  intro us
  induction us with
  | nil =>
    intro s k pid h
    exact ⟨h, rfl, by simp [runStarts]⟩
  | cons u us ih =>
    intro s k pid h
    rw [runStarts_cons]
    cases hk : keyOf u with
    | none =>
      have hstep : startLookup (none : Option Str) s = (s, none) := rfl
      rw [hstep]
      obtain ⟨h1, h2, h3⟩ := ih s k pid h
      refine ⟨h1, h2, ?_⟩
      intro p hp hkp
      rcases List.mem_cons.mp (by simpa using hp) with h4 | h4
      · subst h4; rw [hk] at hkp; cases hkp
      · exact h3 p h4 hkp
    | some k' =>
      cases hfind : assocFind s.cache k' with
      | some pid' =>
        have hstep : startLookup (some k') s = (s, some pid') := by
          simp [startLookup, hfind]
        rw [hstep]
        obtain ⟨h1, h2, h3⟩ := ih s k pid h
        refine ⟨h1, h2, ?_⟩
        intro p hp hkp
        rcases List.mem_cons.mp (by simpa using hp) with h4 | h4
        · subst h4
          rw [hk] at hkp
          have hkk : k' = k := by injection hkp
          subst hkk
          rw [hfind] at h
          injection h with h5
          rw [h5]
        · exact h3 p h4 hkp
      | none =>
        have hkk : k' ≠ k := by
          intro hh
          subst hh
          rw [hfind] at h
          cases h
        have hstep : startLookup (some k') s =
            (⟨assocSet s.cache k' s.nextId, s.nextId + 1, s.issued ++ [k']⟩,
             some s.nextId) := by
          simp [startLookup, hfind]
        rw [hstep]
        have hfind2 : assocFind (assocSet s.cache k' s.nextId) k = some pid := by
          rw [assocFind_set_ne _ _ _ _ hkk]; exact h
        obtain ⟨h1, h2, h3⟩ :=
          ih ⟨assocSet s.cache k' s.nextId, s.nextId + 1, s.issued ++ [k']⟩ k pid hfind2
        refine ⟨h1, ?_, ?_⟩
        · rw [h2]
          simp only [countKey_append, countKey_single_ne k' k hkk, Nat.add_zero]
        · intro p hp hkp
          rcases List.mem_cons.mp (by simpa using hp) with h4 | h4
          · subst h4
            rw [hk] at hkp
            have : k' = k := by injection hkp
            exact absurd this hkk
          · exact h3 p h4 hkp

theorem runStarts_fresh (keyOf : Str → Option Str) :
    ∀ (us : List Str) (s : PendingState) (k : Str),
      assocFind s.cache k = none → countKey s.issued k = 0 →
      countKey (runStarts keyOf s us).1.issued k ≤ 1 ∧
      ((∃ u ∈ us, keyOf u = some k) →
        countKey (runStarts keyOf s us).1.issued k = 1) ∧
      ∃ pid, ∀ p ∈ us.zip (runStarts keyOf s us).2,
        keyOf p.1 = some k → p.2 = some pid := by
  intro us
  induction us with
  | nil =>
    intro s k h hc
    refine ⟨by simp [runStarts, hc], by simp [runStarts], 0, by simp [runStarts]⟩
  | cons u us ih =>
    intro s k h hc
    rw [runStarts_cons]
    by_cases hku : keyOf u = some k
    · have hstep : startLookup (keyOf u) s =
          (⟨assocSet s.cache k s.nextId, s.nextId + 1, s.issued ++ [k]⟩,
           some s.nextId) := by
        rw [hku]; simp [startLookup, h]
      rw [hstep]
      obtain ⟨h1, h2, h3⟩ := runStarts_persist keyOf us
        ⟨assocSet s.cache k s.nextId, s.nextId + 1, s.issued ++ [k]⟩ k s.nextId
        (assocFind_set_self _ _ _)
      have hcount : countKey (runStarts keyOf
          ⟨assocSet s.cache k s.nextId, s.nextId + 1, s.issued ++ [k]⟩ us).1.issued k = 1 := by
        rw [h2]
        simp only [countKey_append, countKey_single_eq, hc]
      refine ⟨Nat.le_of_eq hcount, fun _ => hcount, s.nextId, ?_⟩
      intro p hp hkp
      rcases List.mem_cons.mp (by simpa using hp) with h4 | h4
      · subst h4; rfl
      · exact h3 p h4 hkp
    · cases hk : keyOf u with
      | none =>
        have hstep : startLookup (none : Option Str) s = (s, none) := rfl
        rw [hstep]
        obtain ⟨h1, h2, h3⟩ := ih s k h hc
        refine ⟨h1, ?_, ?_⟩
        · rintro ⟨u', hu', hku'⟩
          rcases List.mem_cons.mp hu' with h4 | h4
          · subst h4; rw [hk] at hku'; cases hku'
          · exact h2 ⟨u', h4, hku'⟩
        · obtain ⟨pid, hpid⟩ := h3
          refine ⟨pid, ?_⟩
          intro p hp hkp
          rcases List.mem_cons.mp (by simpa using hp) with h4 | h4
          · subst h4; rw [hk] at hkp; cases hkp
          · exact hpid p h4 hkp
      | some k' =>
        have hkk : k' ≠ k := fun hh => hku (by rw [hk, hh])
        cases hfind : assocFind s.cache k' with
        | some pid' =>
          have hstep : startLookup (some k') s = (s, some pid') := by
            simp [startLookup, hfind]
          rw [hstep]
          obtain ⟨h1, h2, h3⟩ := ih s k h hc
          refine ⟨h1, ?_, ?_⟩
          · rintro ⟨u', hu', hku'⟩
            rcases List.mem_cons.mp hu' with h4 | h4
            · subst h4
              rw [hk] at hku'
              have : k' = k := by injection hku'
              exact absurd this hkk
            · exact h2 ⟨u', h4, hku'⟩
          · obtain ⟨pid, hpid⟩ := h3
            refine ⟨pid, ?_⟩
            intro p hp hkp
            rcases List.mem_cons.mp (by simpa using hp) with h4 | h4
            · subst h4
              rw [hk] at hkp
              have : k' = k := by injection hkp
              exact absurd this hkk
            · exact hpid p h4 hkp
        | none =>
          have hstep : startLookup (some k') s =
              (⟨assocSet s.cache k' s.nextId, s.nextId + 1, s.issued ++ [k']⟩,
               some s.nextId) := by
            simp [startLookup, hfind]
          rw [hstep]
          have hfind2 : assocFind (assocSet s.cache k' s.nextId) k = none := by
            rw [assocFind_set_ne _ _ _ _ hkk]; exact h
          have hcount2 : countKey (s.issued ++ [k']) k = 0 := by
            simp only [countKey_append, countKey_single_ne k' k hkk, hc]
          obtain ⟨h1, h2, h3⟩ :=
            ih ⟨assocSet s.cache k' s.nextId, s.nextId + 1, s.issued ++ [k']⟩ k hfind2 hcount2
          refine ⟨h1, ?_, ?_⟩
          · rintro ⟨u', hu', hku'⟩
            rcases List.mem_cons.mp hu' with h4 | h4
            · subst h4
              rw [hk] at hku'
              have : k' = k := by injection hku'
              exact absurd this hkk
            · exact h2 ⟨u', h4, hku'⟩
          · obtain ⟨pid, hpid⟩ := h3
            refine ⟨pid, ?_⟩
            intro p hp hkp
            rcases List.mem_cons.mp (by simpa using hp) with h4 | h4
            · subst h4
              rw [hk] at hkp
              have : k' = k := by injection hkp
              exact absurd this hkk
            · exact hpid p h4 hkp

theorem fetchApple_ok_sound
    (aFetch : Str → Str → Except Str (List AppleResult))
    (gFetch : Str → Nat → Except Str Str) (s : FetchState) (url v : Str)
    (hcache : ∀ k w, assocFind s.appleCache k = some (.ok w) → FetchedVal aFetch gFetch w)
    (hok : (fetchAppleArtwork aFetch s url).1 = .ok v) :
    FetchedVal aFetch gFetch v := by
  simp only [fetchAppleArtwork] at hok
  split at hok
  · simp at hok
  next appId hid =>
    split at hok
    next r hfind =>
      simp only at hok
      subst hok
      exact hcache _ _ hfind
    next hfind =>
      split at hok
      next v' hres =>
        simp only at hok
        injection hok with hv
        subst hv
        exact Or.inl ⟨appId, extractAppleCountry url, hres⟩
      next e hres =>
        split at hok
        · simp at hok
        · split at hok
          next fr hfr =>
            simp only at hok
            subst hok
            exact hcache _ _ (by simpa using hfr)
          next hfr =>
            simp only at hok
            exact Or.inl ⟨appId, usStr, hok⟩

theorem fetchGoogle_ok_sound
    (aFetch : Str → Str → Except Str (List AppleResult))
    (parseURL : Str → Option (Option Str)) (gFetch : Str → Nat → Except Str Str)
    (s : FetchState) (url v : Str)
    (hcache : ∀ k w, assocFind s.googleCache k = some (.ok w) → FetchedVal aFetch gFetch w)
    (hok : (fetchGoogleArtwork parseURL gFetch s url).1 = .ok v) :
    FetchedVal aFetch gFetch v := by
  simp only [fetchGoogleArtwork] at hok
  split at hok
  · simp at hok
  · split at hok
    next r hfind =>
      simp only at hok
      subst hok
      exact hcache _ _ hfind
    next hfind =>
      split at hok
      next v' hres =>
        simp only at hok
        injection hok with hv
        subst hv
        exact Or.inr ⟨extractPlayStoreId parseURL url, hres⟩
      next e hres =>
        simp at hok

/-! Claim theorems. -/

/-- C1 counterexample: with a non-US Apple store URL whose primary and US
fallback lookups both fail, the claim says the cache ends with no entry for
the key and a later sequential call issues a fresh lookup; in fact the
failed outcome stays cached under `7_FR` and the second call issues no
network lookup at all (the call log does not grow). -/
theorem claim1_counterexample :
    assocFind (fetchAppleArtwork (fun _ _ => Except.error "boom".data) initFS
        "https://apps.apple.com/fr/app/x/id7".data).2.appleCache "7_FR".data =
      some (Except.error "boom".data) ∧
    (fetchAppleArtwork (fun _ _ => Except.error "boom".data)
        (fetchAppleArtwork (fun _ _ => Except.error "boom".data) initFS
          "https://apps.apple.com/fr/app/x/id7".data).2
        "https://apps.apple.com/fr/app/x/id7".data).2.appleCalls =
      (fetchAppleArtwork (fun _ _ => Except.error "boom".data) initFS
        "https://apps.apple.com/fr/app/x/id7".data).2.appleCalls := by
  decide

/-- C1 amended: a successful lookup caches the resolved value terminally and
later sequential calls return it without a new lookup; a failed lookup
leaves no cache entry (so a later call issues a fresh lookup) for the
Google path and for the Apple path when the requested country is US; but
for the Apple path with a non-US country, when both the requested country
and the US fallback fail, the failure remains cached under both the
requested key and the US-suffixed key and a later sequential call returns
it without any new network lookup. -/
theorem claim1_amended
    (aFetch : Str → Str → Except Str (List AppleResult))
    (parseURL : Str → Option (Option Str)) (gFetch : Str → Nat → Except Str Str)
    (s : FetchState) (url gurl : Str) (appId country pid : Str)
    (hid : extractAppleId url = some appId)
    (hc : extractAppleCountry url = country)
    (hkey : assocFind s.appleCache (appId ++ '_' :: country) = none)
    (hus : assocFind s.appleCache (appId ++ '_' :: usStr) = none)
    (hpid : extractPlayStoreId parseURL gurl = pid) (hpne : pid ≠ [])
    (hgkey : assocFind s.googleCache pid = none) :
    (∀ v, resolveAppleArtwork aFetch appId country = .ok v →
       (fetchAppleArtwork aFetch s url).1 = .ok v ∧
       assocFind (fetchAppleArtwork aFetch s url).2.appleCache
         (appId ++ '_' :: country) = some (.ok v) ∧
       fetchAppleArtwork aFetch (fetchAppleArtwork aFetch s url).2 url =
         (.ok v, (fetchAppleArtwork aFetch s url).2)) ∧
    (∀ e, country = usStr → resolveAppleArtwork aFetch appId country = .error e →
       (fetchAppleArtwork aFetch s url).1 = .error e ∧
       assocFind (fetchAppleArtwork aFetch s url).2.appleCache
         (appId ++ '_' :: country) = none ∧
       (fetchAppleArtwork aFetch (fetchAppleArtwork aFetch s url).2 url).2.appleCalls =
         (fetchAppleArtwork aFetch s url).2.appleCalls ++ [(appId, country)]) ∧
    (∀ e e2, country ≠ usStr → resolveAppleArtwork aFetch appId country = .error e →
       resolveAppleArtwork aFetch appId usStr = .error e2 →
       (fetchAppleArtwork aFetch s url).1 = .error e2 ∧
       assocFind (fetchAppleArtwork aFetch s url).2.appleCache
         (appId ++ '_' :: country) = some (.error e2) ∧
       assocFind (fetchAppleArtwork aFetch s url).2.appleCache
         (appId ++ '_' :: usStr) = some (.error e2) ∧
       fetchAppleArtwork aFetch (fetchAppleArtwork aFetch s url).2 url =
         (.error e2, (fetchAppleArtwork aFetch s url).2)) ∧
    (∀ v, resolveGoogleArtwork (gFetch pid) = .ok v →
       (fetchGoogleArtwork parseURL gFetch s gurl).1 = .ok v ∧
       assocFind (fetchGoogleArtwork parseURL gFetch s gurl).2.googleCache pid =
         some (.ok v) ∧
       fetchGoogleArtwork parseURL gFetch
           (fetchGoogleArtwork parseURL gFetch s gurl).2 gurl =
         (.ok v, (fetchGoogleArtwork parseURL gFetch s gurl).2)) ∧
    (∀ e, resolveGoogleArtwork (gFetch pid) = .error e →
       (fetchGoogleArtwork parseURL gFetch s gurl).1 = .error e ∧
       assocFind (fetchGoogleArtwork parseURL gFetch s gurl).2.googleCache pid = none ∧
       (fetchGoogleArtwork parseURL gFetch
           (fetchGoogleArtwork parseURL gFetch s gurl).2 gurl).2.googleCalls =
         (fetchGoogleArtwork parseURL gFetch s gurl).2.googleCalls ++ [pid]) := by
  refine ⟨?_, ?_, ?_, ?_, ?_⟩
  · intro v hok
    have heq : fetchAppleArtwork aFetch s url =
        (.ok v, ⟨assocSet s.appleCache (appId ++ '_' :: country) (.ok v), s.googleCache,
          s.appleCalls ++ [(appId, country)], s.googleCalls⟩) := by
      simp [fetchAppleArtwork, hid, hc, hkey, hok]
    refine ⟨by rw [heq], by rw [heq]; exact assocFind_set_self _ _ _, ?_⟩
    rw [heq]
    simp [fetchAppleArtwork, hid, hc, assocFind_set_self]
  · intro e hceq hprim
    subst hceq
    have heq : fetchAppleArtwork aFetch s url =
        (.error e, ⟨s.appleCache, s.googleCache,
          s.appleCalls ++ [(appId, usStr)], s.googleCalls⟩) := by
      simp [fetchAppleArtwork, hid, hc, hkey, hprim]
    refine ⟨by rw [heq], by rw [heq]; exact hkey, ?_⟩
    rw [heq]
    simp [fetchAppleArtwork, hid, hc, hkey, hprim]
  · intro e e2 hne hprim hus2
    have hkne : (appId ++ '_' :: country) ≠ (appId ++ '_' :: usStr) := by
      intro h
      have h2 := congrArg (List.drop appId.length) h
      rw [List.drop_left, List.drop_left] at h2
      injection h2 with h3 h4
      exact hne h4
    have heq : fetchAppleArtwork aFetch s url =
        (.error e2,
         ⟨assocSet (assocSet s.appleCache (appId ++ '_' :: usStr) (.error e2))
            (appId ++ '_' :: country) (.error e2),
          s.googleCache, s.appleCalls ++ [(appId, country), (appId, usStr)],
          s.googleCalls⟩) := by
      simp [fetchAppleArtwork, hid, hc, hkey, hus, hprim, hus2, hne]
    refine ⟨by rw [heq], ?_, ?_, ?_⟩
    · rw [heq]; exact assocFind_set_self _ _ _
    · rw [heq]
      rw [assocFind_set_ne _ _ _ _ hkne]
      exact assocFind_set_self _ _ _
    · rw [heq]
      simp [fetchAppleArtwork, hid, hc, assocFind_set_self]
  · intro v hok
    have heq : fetchGoogleArtwork parseURL gFetch s gurl =
        (.ok v, ⟨s.appleCache, assocSet s.googleCache pid (.ok v), s.appleCalls,
          s.googleCalls ++ [pid]⟩) := by
      simp [fetchGoogleArtwork, hpid, hpne, hgkey, hok]
    refine ⟨by rw [heq], by rw [heq]; exact assocFind_set_self _ _ _, ?_⟩
    rw [heq]
    simp [fetchGoogleArtwork, hpid, hpne, assocFind_set_self]
  · intro e herr
    have heq : fetchGoogleArtwork parseURL gFetch s gurl =
        (.error e, ⟨s.appleCache, s.googleCache, s.appleCalls,
          s.googleCalls ++ [pid]⟩) := by
      simp [fetchGoogleArtwork, hpid, hpne, hgkey, herr]
    refine ⟨by rw [heq], by rw [heq]; exact hgkey, ?_⟩
    rw [heq]
    simp [fetchGoogleArtwork, hpid, hpne, hgkey, herr]

theorem claim1_amended_witness :
    (fetchAppleArtwork (fun _ _ => Except.ok [⟨"ART".data, [], []⟩]) initFS
        "https://apps.apple.com/fr/app/x/id7".data).1 = Except.ok "ART".data ∧
    assocFind (fetchAppleArtwork (fun _ _ => Except.ok [⟨"ART".data, [], []⟩]) initFS
        "https://apps.apple.com/fr/app/x/id7".data).2.appleCache
        ("7".data ++ '_' :: "FR".data) = some (Except.ok "ART".data) ∧
    fetchAppleArtwork (fun _ _ => Except.ok [⟨"ART".data, [], []⟩])
        (fetchAppleArtwork (fun _ _ => Except.ok [⟨"ART".data, [], []⟩]) initFS
          "https://apps.apple.com/fr/app/x/id7".data).2
        "https://apps.apple.com/fr/app/x/id7".data =
      (Except.ok "ART".data,
       (fetchAppleArtwork (fun _ _ => Except.ok [⟨"ART".data, [], []⟩]) initFS
          "https://apps.apple.com/fr/app/x/id7".data).2) :=
  (claim1_amended (fun _ _ => Except.ok [⟨"ART".data, [], []⟩]) (fun _ => none)
      (fun _ _ => Except.error []) initFS
      "https://apps.apple.com/fr/app/x/id7".data
      "https://play.google.com/store/apps/details?id=com.x".data
      "7".data "FR".data "com.x".data
      (by decide) (by decide) rfl rfl (by decide) (by decide) rfl).1
    "ART".data (by decide)

/-- C2: running the synchronous prefixes of any number of concurrent
requests, in any interleaving, from a state in which key k has no pending
operation: at most one network lookup for k is created; exactly one is
created when some request maps to k; and every request whose URL maps to
key k is attached to the same single operation (the same promise id), so
all of them observe that operation's one outcome.  Holds for the Apple key
(app id and country) and the Google key (package id) alike, because each
fetch function stores the pending operation in its cache before control is
yielded. -/
theorem claim2 (parseURL : Str → Option (Option Str)) (urls : List Str)
    (ca cg : List (Str × Nat)) (na ng : Nat) (k : Str)
    (ha : assocFind ca k = none) (hg : assocFind cg k = none) :
    (countKey (runStarts appleCacheKey ⟨ca, na, []⟩ urls).1.issued k ≤ 1 ∧
     ((∃ u ∈ urls, appleCacheKey u = some k) →
        countKey (runStarts appleCacheKey ⟨ca, na, []⟩ urls).1.issued k = 1) ∧
     ∃ pid, ∀ p ∈ urls.zip (runStarts appleCacheKey ⟨ca, na, []⟩ urls).2,
        appleCacheKey p.1 = some k → p.2 = some pid) ∧
    (countKey (runStarts (googleCacheKey parseURL) ⟨cg, ng, []⟩ urls).1.issued k ≤ 1 ∧
     ((∃ u ∈ urls, googleCacheKey parseURL u = some k) →
        countKey (runStarts (googleCacheKey parseURL) ⟨cg, ng, []⟩ urls).1.issued k = 1) ∧
     ∃ pid, ∀ p ∈ urls.zip (runStarts (googleCacheKey parseURL) ⟨cg, ng, []⟩ urls).2,
        googleCacheKey parseURL p.1 = some k → p.2 = some pid) :=
  ⟨runStarts_fresh appleCacheKey urls ⟨ca, na, []⟩ k ha (by simp [countKey]),
   runStarts_fresh (googleCacheKey parseURL) urls ⟨cg, ng, []⟩ k hg (by simp [countKey])⟩

theorem claim2_witness :
    countKey (runStarts appleCacheKey ⟨[], 0, []⟩
        ["https://apps.apple.com/fr/app/x/id7".data,
         "https://apps.apple.com/fr/app/x/id7".data]).1.issued "7_FR".data = 1 :=
  (claim2 (fun _ => none)
      ["https://apps.apple.com/fr/app/x/id7".data,
       "https://apps.apple.com/fr/app/x/id7".data]
      [] [] 0 0 "7_FR".data rfl rfl).1.2.1 (by decide)

/-- C3: a project whose cover_image is nonempty after trimming resolves to
that trimmed cover image for every section key and platform, with the fetch
state (caches and network-call logs) untouched: no store lookup happens. -/
theorem claim3 (aFetch : Str → Str → Except Str (List AppleResult))
    (parseURL : Str → Option (Option Str)) (gFetch : Str → Nat → Except Str Str)
    (s : FetchState) (project : Project) (sectionKey : Str)
    (h : trimChars project.cover_image ≠ []) :
    resolveImageSource aFetch parseURL gFetch s project sectionKey =
      (trimChars project.cover_image, s) := by
  simp [resolveImageSource, h]

theorem claim3_witness :
    resolveImageSource (fun _ _ => Except.error []) (fun _ => none)
      (fun _ _ => Except.error []) initFS
      ⟨"T".data, "https://apps.apple.com/us/app/x/id9".data, "iOS".data,
        " img.png ".data, [], [], []⟩ "mobile".data =
      (trimChars " img.png ".data, initFS) :=
  claim3 _ _ _ _ _ _ (by decide)

/-- C4: resolveImageSource never raises: for every project, section key and
state whose cached successes are store-produced values, it resolves to a
string that is the project's trimmed cover image, the fixed placeholder
path, or a value successfully produced by one of the store lookups — on
every failure path of the underlying lookups included. -/
theorem claim4 (aFetch : Str → Str → Except Str (List AppleResult))
    (parseURL : Str → Option (Option Str)) (gFetch : Str → Nat → Except Str Str)
    (s : FetchState) (project : Project) (sectionKey : Str)
    (hcache : CacheOK aFetch gFetch s) :
    (resolveImageSource aFetch parseURL gFetch s project sectionKey).1 =
        trimChars project.cover_image ∨
    (resolveImageSource aFetch parseURL gFetch s project sectionKey).1 =
        placeholderImage ∨
    FetchedVal aFetch gFetch
      (resolveImageSource aFetch parseURL gFetch s project sectionKey).1 := by
  by_cases hcov : trimChars project.cover_image = []
  · by_cases hdisp : (decide (toLowerList sectionKey = "mobile".data) ||
        isMobilePlatform project) = true
    · by_cases hios : containsSub (toLowerList project.platform) "ios".data = true
      · rcases hres : fetchAppleArtwork aFetch s project.url with ⟨r, s'⟩
        cases r with
        | ok v =>
          right; right
          have hv : (resolveImageSource aFetch parseURL gFetch s project sectionKey).1 = v := by
            simp [resolveImageSource, resolveMobileImage, hcov, hdisp, hios, hres]
          rw [hv]
          exact fetchApple_ok_sound aFetch gFetch s project.url v hcache.1
            (by rw [hres])
        | error e =>
          right; left
          simp [resolveImageSource, resolveMobileImage, hcov, hdisp, hios, hres]
      · by_cases hand : containsSub (toLowerList project.platform) "android".data = true
        · rcases hres : fetchGoogleArtwork parseURL gFetch s project.url with ⟨r, s'⟩
          cases r with
          | ok v =>
            right; right
            have hv : (resolveImageSource aFetch parseURL gFetch s project sectionKey).1 =
                v := by
              simp [resolveImageSource, resolveMobileImage, hcov, hdisp, hios, hand, hres]
            rw [hv]
            exact fetchGoogle_ok_sound aFetch parseURL gFetch s project.url v hcache.2
              (by rw [hres])
          | error e =>
            right; left
            simp [resolveImageSource, resolveMobileImage, hcov, hdisp, hios, hand, hres]
        · right; left
          simp [resolveImageSource, resolveMobileImage, hcov, hdisp, hios, hand]
    · right; left
      simp [resolveImageSource, hcov, hdisp]
  · left
    simp [resolveImageSource, hcov]

theorem claim4_witness :
    (resolveImageSource (fun _ _ => Except.error "down".data) (fun _ => none)
        (fun _ _ => Except.error "down".data) initFS
        ⟨"T".data, "https://apps.apple.com/us/app/x/id9".data, "iOS".data,
          [], [], [], []⟩ "mobile".data).1 = trimChars ([] : Str) ∨
    (resolveImageSource (fun _ _ => Except.error "down".data) (fun _ => none)
        (fun _ _ => Except.error "down".data) initFS
        ⟨"T".data, "https://apps.apple.com/us/app/x/id9".data, "iOS".data,
          [], [], [], []⟩ "mobile".data).1 = placeholderImage ∨
    FetchedVal (fun _ _ => Except.error "down".data)
      (fun _ _ => Except.error "down".data)
      (resolveImageSource (fun _ _ => Except.error "down".data) (fun _ => none)
        (fun _ _ => Except.error "down".data) initFS
        ⟨"T".data, "https://apps.apple.com/us/app/x/id9".data, "iOS".data,
          [], [], [], []⟩ "mobile".data).1 :=
  claim4 (fun _ _ => Except.error "down".data) (fun _ => none)
    (fun _ _ => Except.error "down".data) initFS
    ⟨"T".data, "https://apps.apple.com/us/app/x/id9".data, "iOS".data,
      [], [], [], []⟩ "mobile".data
    ⟨fun k w h => by simp [assocFind, initFS] at h,
     fun k w h => by simp [assocFind, initFS] at h⟩

/-- C5: the Apple path extracts the two-letter country code from the path
segment right after the store host and uppercases it; it uses US when no
such segment occurs anywhere in the URL; and on a primary failure for a
non-US country it retries exactly once against the US endpoint, caching
that US lookup under the US-suffixed key (a cached US outcome is reused
with no additional network call). -/
theorem claim5 :
    (∀ (pre : Str) (c1 c2 : Char) (rest : Str),
       isWordChar c1 = true → isWordChar c2 = true →
       (∀ t ∈ allSuffixes pre, t ≠ [] →
          matchAppleAt (t ++ (appleHostPat ++ c1 :: c2 :: '/' :: rest)) = none) →
       extractAppleCountry (pre ++ (appleHostPat ++ c1 :: c2 :: '/' :: rest)) =
         [c1.toUpper, c2.toUpper]) ∧
    (∀ url : Str, (∀ t ∈ allSuffixes url, matchAppleAt t = none) →
       extractAppleCountry url = "US".data) ∧
    (∀ (aFetch : Str → Str → Except Str (List AppleResult)) (s : FetchState)
       (url appId country e : Str),
       extractAppleId url = some appId → extractAppleCountry url = country →
       country ≠ usStr →
       assocFind s.appleCache (appId ++ '_' :: country) = none →
       resolveAppleArtwork aFetch appId country = .error e →
       ((assocFind s.appleCache (appId ++ '_' :: usStr) = none →
          (fetchAppleArtwork aFetch s url).2.appleCalls =
            s.appleCalls ++ [(appId, country), (appId, usStr)] ∧
          assocFind (fetchAppleArtwork aFetch s url).2.appleCache
            (appId ++ '_' :: usStr) = some (resolveAppleArtwork aFetch appId usStr)) ∧
        (∀ fr, assocFind s.appleCache (appId ++ '_' :: usStr) = some fr →
          (fetchAppleArtwork aFetch s url).1 = fr ∧
          (fetchAppleArtwork aFetch s url).2.appleCalls =
            s.appleCalls ++ [(appId, country)]))) := by
  refine ⟨?_, ?_, ?_⟩
  · intro pre c1 c2 rest h1 h2 hpre
    have hs : scanFor matchAppleAt (pre ++ (appleHostPat ++ c1 :: c2 :: '/' :: rest)) =
        some (c1, c2) := by
      rw [scanFor_append matchAppleAt pre _ hpre]
      exact scanFor_of_head _ _ _ (matchAppleAt_pos c1 c2 rest h1 h2)
    simp [extractAppleCountry, hs]
  · intro url hnone
    have hs : scanFor matchAppleAt url = none :=
      (scanFor_eq_none_iff matchAppleAt url).mpr hnone
    simp [extractAppleCountry, hs]
  · intro aFetch s url appId country e hid hc hne hkey hprim
    have hkne : (appId ++ '_' :: country) ≠ (appId ++ '_' :: usStr) := by
      intro h
      have h2 := congrArg (List.drop appId.length) h
      rw [List.drop_left, List.drop_left] at h2
      injection h2 with h3 h4
      exact hne h4
    constructor
    · intro hus
      constructor
      · simp [fetchAppleArtwork, hid, hc, hkey, hus, hprim, hne]
      · have heq : (fetchAppleArtwork aFetch s url).2.appleCache =
            assocSet (assocSet s.appleCache (appId ++ '_' :: usStr)
                (resolveAppleArtwork aFetch appId usStr))
              (appId ++ '_' :: country) (resolveAppleArtwork aFetch appId usStr) := by
          simp [fetchAppleArtwork, hid, hc, hkey, hus, hprim, hne]
        rw [heq, assocFind_set_ne _ _ _ _ hkne]
        exact assocFind_set_self _ _ _
    · intro fr hfr
      constructor
      · simp [fetchAppleArtwork, hid, hc, hkey, hfr, hprim, hne]
      · simp [fetchAppleArtwork, hid, hc, hkey, hfr, hprim, hne]

theorem claim5_witness :
    extractAppleCountry ("https://".data ++
        (appleHostPat ++ 'f' :: 'r' :: '/' :: "app/x/id7".data)) =
      ['f'.toUpper, 'r'.toUpper] :=
  claim5.1 "https://".data 'f' 'r' "app/x/id7".data (by decide) (by decide) (by decide)

/-- C6: the Google path takes the package id from the URL's id query
parameter, scanning the raw URL with the id regex when URL parsing fails;
the mirror loop tries the two endpoints in order, returns the first body
that yields an og:image URL (with ampersand entities unescaped), and when
every mirror fails raises the last-seen error (the fetch error of the last
mirror, or the no-og-image message when its body had no tag); and a body
carrying a property-then-content og:image meta tag yields its content. -/
theorem claim6 :
    (∀ (parseURL : Str → Option (Option Str)) (url i : Str),
       parseURL url = some (some i) → i ≠ [] → extractPlayStoreId parseURL url = i) ∧
    (∀ (parseURL : Str → Option (Option Str)) (url : Str),
       parseURL url = none → extractPlayStoreId parseURL url = scanIdParam url) ∧
    (∀ (gFetch : Nat → Except Str Str) (h0 u : Str),
       gFetch 0 = .ok h0 → extractOgImage h0 = some u →
       resolveGoogleArtwork gFetch = .ok u) ∧
    (∀ (gFetch : Nat → Except Str Str) (h1 u : Str),
       ((∃ e0, gFetch 0 = .error e0) ∨
        (∃ h0, gFetch 0 = .ok h0 ∧ extractOgImage h0 = none)) →
       gFetch 1 = .ok h1 → extractOgImage h1 = some u →
       resolveGoogleArtwork gFetch = .ok u) ∧
    (∀ (gFetch : Nat → Except Str Str) (e1 : Str),
       ((∃ e0, gFetch 0 = .error e0) ∨
        (∃ h0, gFetch 0 = .ok h0 ∧ extractOgImage h0 = none)) →
       gFetch 1 = .error e1 → resolveGoogleArtwork gFetch = .error e1) ∧
    (∀ (gFetch : Nat → Except Str Str) (h1 : Str),
       ((∃ e0, gFetch 0 = .error e0) ∨
        (∃ h0, gFetch 0 = .ok h0 ∧ extractOgImage h0 = none)) →
       gFetch 1 = .ok h1 → extractOgImage h1 = none →
       resolveGoogleArtwork gFetch = .error noOgMsg) ∧
    (∀ u rest : Str, u ≠ [] → (∀ c ∈ u, isQuote c = false) →
       extractOgImage ("<meta property=\"og:image\" content=\"".data ++
           (u ++ ('"' :: rest))) = some (replaceAmp u)) ∧
    (extractOgImage "<meta content='X&amp;Y' property='og:image'>".data =
       some "X&Y".data) ∧
    (extractOgImage "<meta name=\"og:image\" content=\"Z\">".data = some "Z".data) := by
  refine ⟨?_, ?_, ?_, ?_, ?_, ?_, ?_, by decide, by decide⟩
  · intro parseURL url i hp hne
    simp [extractPlayStoreId, hp, hne]
  · intro parseURL url hp
    simp [extractPlayStoreId, hp]
  · intro gFetch h0 u h0ok hog
    simp [resolveGoogleArtwork, playStoreProxyEndpoints, resolveGoogleLoop, h0ok, hog]
  · intro gFetch h1 u hfail h1ok hog
    rcases hfail with ⟨e0, he0⟩ | ⟨h0, h0ok, h0no⟩
    · simp [resolveGoogleArtwork, playStoreProxyEndpoints, resolveGoogleLoop,
        he0, h1ok, hog]
    · simp [resolveGoogleArtwork, playStoreProxyEndpoints, resolveGoogleLoop,
        h0ok, h0no, h1ok, hog]
  · intro gFetch e1 hfail h1err
    rcases hfail with ⟨e0, he0⟩ | ⟨h0, h0ok, h0no⟩
    · simp [resolveGoogleArtwork, playStoreProxyEndpoints, resolveGoogleLoop,
        he0, h1err]
    · simp [resolveGoogleArtwork, playStoreProxyEndpoints, resolveGoogleLoop,
        h0ok, h0no, h1err]
  · intro gFetch h1 hfail h1ok h1no
    rcases hfail with ⟨e0, he0⟩ | ⟨h0, h0ok, h0no⟩
    · simp [resolveGoogleArtwork, playStoreProxyEndpoints, resolveGoogleLoop,
        he0, h1ok, h1no]
    · simp [resolveGoogleArtwork, playStoreProxyEndpoints, resolveGoogleLoop,
        h0ok, h0no, h1ok, h1no]
  · intro u rest hne hq
    have hs : scanFor matchP1At ("<meta property=\"og:image\" content=\"".data ++
        (u ++ ('"' :: rest))) = some u :=
      scanFor_of_head _ _ _ (matchP1At_pos u rest hne hq)
    unfold extractOgImage
    rw [hs]

theorem claim6_witness :
    extractOgImage ("<meta property=\"og:image\" content=\"".data ++
        ("http://x/a&amp;b".data ++ ('"' :: "></html>".data))) =
      some (replaceAmp "http://x/a&amp;b".data) :=
  claim6.2.2.2.2.2.2.1 "http://x/a&amp;b".data "></html>".data (by decide) (by decide)

/-- C9: getCurrentTheme normalizes the root attribute to dark exactly when
it is the string dark and to light for every other value, and a toggle
click flips that normalized value and writes it back, so after any click
the root attribute is exactly light or dark. -/
theorem claim9 :
    (∀ attr : Option Str,
       (getCurrentTheme attr = darkTheme ↔ attr = some darkTheme) ∧
       (attr ≠ some darkTheme → getCurrentTheme attr = lightTheme)) ∧
    (∀ (storageOk : Bool) (s : ThemeState),
       (themeToggleClick storageOk s).rootAttr =
         some (if getCurrentTheme s.rootAttr = darkTheme then lightTheme else darkTheme) ∧
       ((themeToggleClick storageOk s).rootAttr = some lightTheme ∨
        (themeToggleClick storageOk s).rootAttr = some darkTheme)) := by
  constructor
  · intro attr
    constructor
    · constructor
      · intro h
        by_cases hne : attr = some darkTheme
        · exact hne
        · rw [getCurrentTheme, if_neg hne] at h
          exact absurd h (by decide)
      · intro h; simp [getCurrentTheme, h]
    · intro h; simp [getCurrentTheme, h]
  · intro storageOk s
    refine ⟨rfl, ?_⟩
    by_cases h : getCurrentTheme s.rootAttr = darkTheme <;>
      simp [themeToggleClick, applyTheme, h]

theorem claim9_witness :
    getCurrentTheme (some "blue".data) = lightTheme ∧
    (themeToggleClick true ⟨some darkTheme, none⟩).rootAttr = some lightTheme :=
  ⟨(claim9.1 (some "blue".data)).2 (by decide),
   by
     have h := (claim9.2 true ⟨some darkTheme, none⟩).1
     simpa [getCurrentTheme] using h⟩

/-- C7: with the main, nav and sections containers present, a rejected
manifest fetch, a non-2xx status, or a parse failure each prepend exactly
one error notice and render no nav entries and no sections; a successful
fetch and parse prepends no notice and renders one nav entry and one
section per manifest entry. -/
theorem claim7 (dom : Dom) (hm : dom.hasMain = true) (hn : dom.hasNav = true)
    (hs : dom.hasSections = true) :
    bootstrapPortfolio dom ManifestFetch.netError = ⟨1, [], []⟩ ∧
    (∀ status body, responseOk status = false →
       bootstrapPortfolio dom (ManifestFetch.http status body) = ⟨1, [], []⟩) ∧
    (∀ status, responseOk status = true →
       bootstrapPortfolio dom (ManifestFetch.http status none) = ⟨1, [], []⟩) ∧
    (∀ status data, responseOk status = true →
       (bootstrapPortfolio dom (ManifestFetch.http status (some data))).notices = 0 ∧
       (bootstrapPortfolio dom (ManifestFetch.http status (some data))).nav.length =
         data.length ∧
       (bootstrapPortfolio dom (ManifestFetch.http status (some data))).sections.length =
         data.length) := by
  refine ⟨?_, ?_, ?_, ?_⟩
  · simp [bootstrapPortfolio, failNotice, hm]
  · intro status body hbad
    simp [bootstrapPortfolio, failNotice, hbad, hm]
  · intro status hok
    simp [bootstrapPortfolio, failNotice, hok, hm]
  · intro status data hok
    have hlen := renderEntries_len data 0
    simp [bootstrapPortfolio, renderPortfolioSections, hok, hn, hs, hlen.1, hlen.2]

theorem claim7_witness :
    bootstrapPortfolio ⟨true, true, true⟩ (ManifestFetch.http 500 none) = ⟨1, [], []⟩ ∧
    (bootstrapPortfolio ⟨true, true, true⟩
       (ManifestFetch.http 200 (some [("web".data, JVal.arr [])]))).notices = 0 :=
  ⟨(claim7 ⟨true, true, true⟩ rfl rfl rfl).2.1 500 none (by decide),
   ((claim7 ⟨true, true, true⟩ rfl rfl rfl).2.2.2 200 [("web".data, JVal.arr [])]
     (by decide)).1⟩

/-- C10: a manifest entry whose value is not an array renders exactly like
an entry with an empty project list: the nav link and the section are still
created, and that section gets the empty-state message and zero cards. -/
theorem claim10 (i : Nat) (rawKey : Str) (v : JVal) (rest : List (Str × JVal))
    (hv : v.isArr = false) :
    renderEntries i ((rawKey, v) :: rest) =
      renderEntries i ((rawKey, JVal.arr []) :: rest) ∧
    (renderEntries i ((rawKey, v) :: rest)).1.length = rest.length + 1 ∧
    (renderEntries i ((rawKey, v) :: rest)).2.length = rest.length + 1 ∧
    ((renderEntries i ((rawKey, v) :: rest)).2.head?.map SectionEl.emptyState =
      some true) ∧
    ((renderEntries i ((rawKey, v) :: rest)).2.head?.map SectionEl.cards = some []) := by
  have hproj : (match v with | JVal.arr ps => ps | _ => ([] : List Project)) = [] := by
    cases v <;> simp_all [JVal.isArr]
  have hlen := renderEntries_len rest (i + 1)
  refine ⟨?_, ?_, ?_, ?_, ?_⟩ <;>
    simp [renderEntries, hproj, renderSection, hlen.1, hlen.2]

/-- C8: formatting any string with formatSectionTitle and then slugifying
it yields a string of lowercase letters, digits and hyphens only, with no
leading hyphen, no trailing hyphen, and no two consecutive hyphens. -/
theorem claim8 (s : Str) :
    (slugify (formatSectionTitle s)).all isSlugChar = true ∧
    (slugify (formatSectionTitle s)).head? ≠ some '-' ∧
    (slugify (formatSectionTitle s)).getLast? ≠ some '-' ∧
    ¬ ∃ l1 l2, slugify (formatSectionTitle s) = l1 ++ '-' :: '-' :: l2 := by
  obtain ⟨h1, h2, h3, h4⟩ := slugify_props (formatSectionTitle s)
  exact ⟨List.all_eq_true.mpr h1, h2, h3, noConsecDash_no_split _ h4⟩

theorem claim8_witness :
    (slugify (formatSectionTitle "My_Portfolio Sections".data)).all isSlugChar = true :=
  (claim8 "My_Portfolio Sections".data).1

theorem claim10_witness :
    (renderEntries 0 [("mobile".data, JVal.str "oops".data)]).2.head?.map
      SectionEl.emptyState = some true :=
  (claim10 0 "mobile".data (JVal.str "oops".data) [] (by decide)).2.2.2.1

end Portfolio
